import Mathlib

/-!
Verification of the llm-foundry in-context-learning (ICL) evaluation batch
pipeline: a shallow embedding in Lean 4 of the batch construction, microbatch
splitting, configuration validation and token-counting collator code of
`llmfoundry/eval/datasets/in_context_learning_evaluation.py` and
`llmfoundry/data/utils.py`, together with theorems settling the specified
properties.

Modelling conventions:
  * torch 2-D tensors are lists of rows (`List (List Int)`); stacking token
    lists into a tensor (`convert_tokens_to_tensors`) preserves the row
    structure, so it is the identity on this representation.
  * Python lists of tensors / tuples / primitives are plain Lean lists.
  * A Python `dict` batch is an association list `List (String × BVal)`
    (Python dicts preserve insertion order).
  * Fallible Python code (raising `ValueError` / `KeyError` / `IndexError`)
    is modelled with `Except String` / `Option`.
  * The tokenizer is an external collaborator and is modelled as an abstract
    function `String → List Int`.
-/

namespace ICL

/-- A value stored under one key of a batch dict.  The constructors mirror
the runtime type classes the code dispatches on: a 2-D torch tensor
(`tensor`, one row per batch element), a Python list of small 1-D tensors
(`tensorList`, e.g. `continuation_indices`), a Python list of `(start, end)`
tuples (`tupleList`, e.g. `choice_groupings`), a Python list of primitive
ints (`primList`, e.g. `gold_indices`), and a primitive string value
(`str`, e.g. `mode`). -/
inductive BVal where
  | tensor (rows : List (List Int))
  | tensorList (xs : List (List Int))
  | tupleList (xs : List (Nat × Nat))
  | primList (xs : List Int)
  | str (s : String)
deriving DecidableEq, Repr

/-- `type(v) == list` in Python: true exactly for the values represented as
Python lists (lists of tensors, of tuples, or of primitives). -/
def BVal.isPyList : BVal → Bool
  | .tensorList _ => true
  | .tupleList _ => true
  | .primList _ => true
  | _ => false

/-- Modelled from the spec: composer's `_split_list` (an external
collaborator of the repository, §4.5 of the spec): cut a list into
consecutive chunks of `n` elements, the last chunk possibly shorter
(`[v[start:start+n] for start in range(0, len(v), n)]`).  `torch.split`
on dimension 0 (composer's `_split_tensor`) chunks the rows of a 2-D
tensor the same way.  Defined for positive `n`; Python raises for a zero
step, and here `n = 0` returns `[]`. -/
def splitList (n : Nat) (xs : List α) : List (List α) :=
  if h : n = 0 ∨ xs.isEmpty then []
  else xs.take n :: splitList n (xs.drop n)
termination_by xs.length
decreasing_by
  push_neg at h
  have h1 : 0 < xs.length := by
    cases xs with
    | nil => simp at h
    | cons a l => simp
  have h2 : 0 < n := Nat.pos_of_ne_zero h.1
  simp only [List.length_drop]
  omega

/-- Chunk the contents of a batch value into consecutive size-`n` pieces,
each piece a value of the same runtime type. -/
def chunkBVal (n : Nat) : BVal → List BVal
  | .tensor rows => (splitList n rows).map .tensor
  | .tensorList xs => (splitList n xs).map .tensorList
  | .tupleList xs => (splitList n xs).map .tupleList
  | .primList xs => (splitList n xs).map .primList
  | .str s => [.str s]

/-- A microbatch size as passed to `split_batch`: Python distinguishes an
`int` from a `float` purely by its runtime type tag, and rejects any
`float` before looking at its value. -/
inductive MBSize where
  | int (n : Nat)
  | float
deriving DecidableEq, Repr

/-- `InContextLearningDataset.get_effective_batch_size` (base class):
returns the configured batch size unchanged. -/
def baseGetEffectiveBatchSize (batch_size : Nat) : Nat :=
  batch_size

/-- `InContextLearningMultipleChoiceTaskDataset.get_effective_batch_size`:
`batch_size = max(self.num_choices, batch_size); return batch_size // self.num_choices`. -/
def mcGetEffectiveBatchSize (num_choices batch_size : Nat) : Nat :=
  let batch_size := max num_choices batch_size
  batch_size / num_choices

/-- `InContextLearningSchemaTaskDataset.get_effective_batch_size`
(textually duplicated in the source):
`batch_size = max(self.num_choices, batch_size); return batch_size // self.num_choices`. -/
def schemaGetEffectiveBatchSize (num_choices batch_size : Nat) : Nat :=
  let batch_size := max num_choices batch_size
  batch_size / num_choices

/-- Modelled from the spec: composer's `_default_split_batch` applied to a
single batch value (an external collaborator; §4.5).  A 2-D tensor is split
along dimension 0 into consecutive chunks of `n` rows (`torch.split`), and a
Python list of primitives is split into consecutive chunks of `n` entries
(`_split_list`).  The repository's key classifications route no other value
type here; composer's remaining branches (transpose-style splitting of
non-primitive sequences, `NotImplementedError` on scalars) are modelled as an
error. -/
def defaultSplitBVal (n : Nat) : BVal → Except String (List BVal)
  | .tensor rows => .ok ((splitList n rows).map .tensor)
  | .primList xs => .ok ((splitList n xs).map .primList)
  | _ => .error "Unsupported batch type"

/-- The key-classification lists a multiple-choice-style dataset consults in
`split_batch` (`static_keys`, `tensor_keys`, `list_of_tensors_keys`,
`list_of_tuples_keys`, `list_of_primitives`). -/
structure SplitKeys where
  static_keys : List String
  tensor_keys : List String
  list_of_tensors_keys : List String
  list_of_tuples_keys : List String
  list_of_primitives : List String

/-- The key classification fixed by
`InContextLearningMultipleChoiceTaskDataset.__init__` defaults. -/
def mcKeys : SplitKeys where
  static_keys := ["mode", "generation_kwargs"]
  tensor_keys := ["input_ids", "labels", "attention_mask"]
  list_of_tensors_keys := ["continuation_indices"]
  list_of_tuples_keys := ["choice_groupings"]
  list_of_primitives := ["gold_indices"]

/-- The key classification fixed by
`InContextLearningSchemaTaskDataset.__init__` (it passes `static_keys =
['mode']` and the same tensor/list classifications to the multiple-choice
initializer). -/
def schemaKeys : SplitKeys where
  static_keys := ["mode"]
  tensor_keys := ["input_ids", "labels", "attention_mask"]
  list_of_tensors_keys := ["continuation_indices"]
  list_of_tuples_keys := ["choice_groupings"]
  list_of_primitives := ["gold_indices"]

/-- Shared tail of the repository's `split_batch` implementations: read
`num_chunks` off the chunking of `input_ids` (a missing `input_ids` key is a
Python `KeyError`), broadcast every static key of the original batch into
all chunks, and assemble the per-index microbatch dicts
(`[{k: v[idx] for k, v in chunked.items()} for idx in range(num_chunks)]`;
an out-of-range index is a Python `IndexError`). -/
def assembleChunks (statics : List String) (batch : List (String × BVal))
    (chunked : List (String × List BVal)) :
    Except String (List (List (String × BVal))) :=
  match List.lookup "input_ids" chunked with
  | none => .error "KeyError: input_ids"
  | some cs =>
    let num_chunks := cs.length
    let chunked2 := chunked ++
      (batch.filter (fun kv => kv.1 ∈ statics)).map
        (fun kv => (kv.1, List.replicate num_chunks kv.2))
    (List.range num_chunks).mapM (fun idx =>
      chunked2.mapM (fun kv =>
        match kv.2[idx]? with
        | some c => Except.ok (kv.1, c)
        | none => Except.error "IndexError"))

/-- One iteration of the key-classification loop of
`InContextLearningMultipleChoiceTaskDataset.split_batch`: skip static keys
(deferring broadcast); split Python-list values by
`microbatch_size * num_choices` when classified list-of-tensors, by
`microbatch_size` when classified list-of-tuples, with
`_default_split_batch(v, microbatch_size)` when classified
list-of-primitives, and fail on an unclassified list key; split tensor-key
values by `microbatch_size * num_choices`; fail on any other key. -/
def mcSplitStep (ks : SplitKeys) (num_choices m : Nat)
    (acc : List (String × List BVal)) (kv : String × BVal) :
    Except String (List (String × List BVal)) :=
  if kv.1 ∈ ks.static_keys then
    pure acc
  else if kv.2.isPyList then
    if kv.1 ∈ ks.list_of_tensors_keys then
      pure (acc ++ [(kv.1, chunkBVal (m * num_choices) kv.2)])
    else if kv.1 ∈ ks.list_of_tuples_keys then
      pure (acc ++ [(kv.1, chunkBVal m kv.2)])
    else if kv.1 ∈ ks.list_of_primitives then do
      let cs ← defaultSplitBVal m kv.2
      pure (acc ++ [(kv.1, cs)])
    else
      throw ("Unexpected key " ++ kv.1 ++ " in list splitting")
  else if kv.1 ∈ ks.tensor_keys then do
    let cs ← defaultSplitBVal (m * num_choices) kv.2
    pure (acc ++ [(kv.1, cs)])
  else
    throw ("Unexpected key " ++ kv.1 ++ " in batch splitting")

/-- `InContextLearningMultipleChoiceTaskDataset.split_batch` (also used by
the schema variant, which inherits it): reject float microbatch sizes, run
the key-classification loop over the batch dict, then assemble the
microbatch dicts. -/
def mcSplitBatch (ks : SplitKeys) (num_choices : Nat)
    (batch : List (String × BVal)) :
    MBSize → Except String (List (List (String × BVal)))
  | .float => .error "split_batch does not support floating point microbatch_size."
  | .int m => do
    let chunked ← batch.foldlM (mcSplitStep ks num_choices m)
      ([] : List (String × List BVal))
    assembleChunks ks.static_keys batch chunked

/-- The key classification fixed by
`InContextLearningGenerationTaskWithAnswersDataset.__init__`. -/
structure GenSplitKeys where
  static_keys : List String
  list_keys : List String
  tensor_keys : List String

/-- The concrete generation-task key lists set in `__init__`. -/
def genKeys : GenSplitKeys where
  static_keys :=
    ["mode", "cot_delimiter", "generation_kwargs", "do_normalization",
     "stopping_criteria"]
  list_keys := ["labels"]
  tensor_keys := ["input_ids", "attention_mask"]

/-- One iteration of the key-classification loop of
`InContextLearningGenerationTaskWithAnswersDataset.split_batch`: skip
static keys (deferring broadcast); split list-key values with
`_split_list`, tensor-key values with `_default_split_batch`; fail on any
other key. -/
def genSplitStep (ks : GenSplitKeys) (m : Nat)
    (acc : List (String × List BVal)) (kv : String × BVal) :
    Except String (List (String × List BVal)) :=
  if kv.1 ∈ ks.static_keys then
    pure acc
  else if kv.1 ∈ ks.list_keys then
    pure (acc ++ [(kv.1, chunkBVal m kv.2)])
  else if kv.1 ∈ ks.tensor_keys then do
    let cs ← defaultSplitBVal m kv.2
    pure (acc ++ [(kv.1, cs)])
  else
    throw ("Unexpected key " ++ kv.1 ++ " in batch splitting")

/-- `InContextLearningGenerationTaskWithAnswersDataset.split_batch`: reject
float microbatch sizes, run the key-classification loop (`genSplitStep`)
over the batch dict, then assemble the microbatch dicts. -/
def genSplitBatch (ks : GenSplitKeys) (batch : List (String × BVal)) :
    MBSize → Except String (List (List (String × BVal)))
  | .float => .error "split_batch does not support floating point microbatch_size."
  | .int m => do
    let chunked ← batch.foldlM (genSplitStep ks m)
      ([] : List (String × List BVal))
    assembleChunks ks.static_keys batch chunked

/-- Modelled from the spec: composer's `_default_split_batch` on a
dict-shaped batch (§4.5, §6): float microbatch sizes are rejected before
anything else; tensor and list values are chunked into consecutive
`microbatch_size`-sized pieces, primitive values are broadcast into every
chunk once the chunk count (the length of the first chunked value, `1` if
none) is known. -/
def defaultSplitBatchMapping (batch : List (String × BVal)) :
    MBSize → Except String (List (List (String × BVal)))
  | .float => .error "_default_split_batch does not support floating point microbatch_size."
  | .int m =>
    let chunked := batch.foldl (fun acc kv =>
        match kv.2 with
        | .str _ => acc
        | v => acc ++ [(kv.1, chunkBVal m v)]) []
    let num_chunks := match chunked with
      | [] => 1
      | (_, cs) :: _ => cs.length
    let chunked2 := chunked ++
      (batch.filter (fun kv => match kv.2 with
        | .str _ => true
        | _ => false)).map (fun kv => (kv.1, List.replicate num_chunks kv.2))
    (List.range num_chunks).mapM (fun idx =>
      chunked2.mapM (fun kv =>
        match kv.2[idx]? with
        | some c => Except.ok (kv.1, c)
        | none => Except.error "IndexError"))

/-- `InContextLearningDataset.split_batch` (base class): delegate the whole
batch to composer's `_default_split_batch`. -/
def baseSplitBatch (batch : List (String × BVal)) (m : MBSize) :
    Except String (List (List (String × BVal))) :=
  defaultSplitBatchMapping batch m

/-- The batch dict assembled by
`InContextLearningMultipleChoiceTaskDataset.collate_fn`, with the keys of
`base_batch` in insertion order plus the derived `attention_mask`. -/
structure MCBatch where
  input_ids : List (List Int)
  continuation_indices : List (List Int)
  mode : String
  labels : List (List Int)
  gold_indices : List Int
  choice_groupings : List (Nat × Nat)
  attention_mask : List (List Int)
deriving DecidableEq, Repr

/-- The association-list (Python dict) view of a multiple-choice batch, in
the key insertion order of `collate_fn`. -/
def MCBatch.toAssoc (b : MCBatch) : List (String × BVal) :=
  [("input_ids", .tensor b.input_ids),
   ("continuation_indices", .tensorList b.continuation_indices),
   ("mode", .str b.mode),
   ("labels", .tensor b.labels),
   ("gold_indices", .primList b.gold_indices),
   ("choice_groupings", .tupleList b.choice_groupings),
   ("attention_mask", .tensor b.attention_mask)]

/-- The rows of the 2-D tensor stored under key `k` of a microbatch dict
(`[]` when the key is absent or not tensor-valued). -/
def getTensor (mb : List (String × BVal)) (k : String) : List (List Int) :=
  match List.lookup k mb with
  | some (.tensor rows) => rows
  | _ => []

/-- The list of 1-D tensors stored under key `k` of a microbatch dict. -/
def getTensorList (mb : List (String × BVal)) (k : String) :
    List (List Int) :=
  match List.lookup k mb with
  | some (.tensorList xs) => xs
  | _ => []

/-- The list of primitives stored under key `k` of a microbatch dict. -/
def getPrimList (mb : List (String × BVal)) (k : String) : List Int :=
  match List.lookup k mb with
  | some (.primList xs) => xs
  | _ => []

/-- The list of `(start, end)` tuples stored under key `k` of a microbatch
dict. -/
def getTupleList (mb : List (String × BVal)) (k : String) :
    List (Nat × Nat) :=
  match List.lookup k mb with
  | some (.tupleList xs) => xs
  | _ => []

/-- The tensor-row index at which microbatch `j` starts: the total number of
`input_ids` rows of the first `j` microbatches. -/
def tensorBoundary (chunks : List (List (String × BVal))) (j : Nat) : Nat :=
  (((chunks.take j).map (fun mb => (getTensor mb "input_ids").length)).sum)


/-- `InContextLearningDataset._fix_eos_on_preamble`: with a non-null
`eos_token_id`, a preamble of more than one token whose final token is the
eos token has that final token removed; otherwise the token list is returned
unchanged. -/
def fixEosOnPreamble (eos_token_id : Option Int) (input_ids : List Int) :
    List Int :=
  if eos_token_id.isSome ∧ input_ids.length > 1 ∧
      input_ids.getLast? = eos_token_id then
    input_ids.dropLast
  else input_ids

/-- The claimed behaviour of `_fix_eos_on_preamble`: strip the final token
exactly when the tokenizer has an eos token, the preamble is NON-EMPTY
(length at least one) and its last token is the eos token. -/
def fixEosOnPreambleClaim (eos_token_id : Option Int)
    (input_ids : List Int) : List Int :=
  if eos_token_id.isSome ∧ input_ids.length > 0 ∧
      input_ids.getLast? = eos_token_id then
    input_ids.dropLast
  else input_ids

/-- The microbatch dict at index `i` produced by splitting a well-formed
multiple-choice batch with microbatch size `m` and `num_choices` `N`. -/
def mcMicrobatchAt (b : MCBatch) (N m i : Nat) : List (String × BVal) :=
  [("input_ids",
     BVal.tensor ((b.input_ids.drop (i * (m * N))).take (m * N))),
   ("continuation_indices",
     BVal.tensorList
       ((b.continuation_indices.drop (i * (m * N))).take (m * N))),
   ("labels", BVal.tensor ((b.labels.drop (i * (m * N))).take (m * N))),
   ("gold_indices", BVal.primList ((b.gold_indices.drop (i * m)).take m)),
   ("choice_groupings",
     BVal.tupleList ((b.choice_groupings.drop (i * m)).take m)),
   ("attention_mask",
     BVal.tensor ((b.attention_mask.drop (i * (m * N))).take (m * N))),
   ("mode", BVal.str b.mode)]

/-- A concrete two-question, two-choice batch used to witness the
multiple-choice splitting theorem. -/
def mcBatchEx : MCBatch where
  input_ids := [[1], [2], [3], [4]]
  continuation_indices := [[0], [0], [0], [0]]
  mode := "icl_task"
  labels := [[1], [2], [3], [4]]
  gold_indices := [0, 1]
  choice_groupings := [(0, 2), (2, 4)]
  attention_mask := [[1], [1], [1], [1]]

/-- A tokenized multiple-choice record as produced by
`InContextLearningMultipleChoiceTaskDataset.tokenize_example`: one padded
per-choice context and one continuation-indices tensor per answer choice
(accumulated by the per-choice loop), plus the example's gold choice
index. -/
structure MCRecord where
  contexts : List (List Int)
  continuation_indices : List (List Int)
  gold : Int

/-- One `data_pair` iteration of the collate loop of
`InContextLearningMultipleChoiceTaskDataset.collate_fn`: record the
grouping start at the current `continuation_indices` length, append each
per-choice context to `input_ids` and `labels` together with its
continuation-indices tensor (indexing `continuation_indices[i]` is a
Python `IndexError` when the record carries fewer continuation-index
tensors than contexts, modelled as `none`), append the gold index, and
record the grouping `(start, end)` with the end taken after the loop. -/
def mcCollateStep (acc : MCBatch) (r : MCRecord) : Option MCBatch :=
  if r.contexts.length ≤ r.continuation_indices.length then
    let choice_start_idx := acc.continuation_indices.length
    let choice_end_idx := choice_start_idx + r.contexts.length
    some { acc with
      input_ids := acc.input_ids ++ r.contexts,
      continuation_indices := acc.continuation_indices ++
        r.continuation_indices.take r.contexts.length,
      labels := acc.labels ++ r.contexts,
      gold_indices := acc.gold_indices ++ [r.gold],
      choice_groupings := acc.choice_groupings ++
        [(choice_start_idx, choice_end_idx)] }
  else none

/-- `InContextLearningMultipleChoiceTaskDataset.collate_fn`: fold the
tokenized records into a deep copy of `base_batch` (empty lists plus
`mode = 'icl_task'`), then derive
`attention_mask = ~(input_ids == pad_tok_id)` (`convert_tokens_to_tensors`
stacks the accumulated token lists into dense tensors, preserving the row
structure; the boolean mask rows are encoded `1`/`0`). -/
def mcCollateFn (pad_tok_id : Int) (data : List MCRecord) :
    Option MCBatch := do
  let acc ← data.foldlM mcCollateStep
    { input_ids := [], continuation_indices := [], mode := "icl_task",
      labels := [], gold_indices := [], choice_groupings := [],
      attention_mask := [] }
  some { acc with
    attention_mask := acc.input_ids.map
      (fun row => row.map (fun t => if t = pad_tok_id then 0 else 1)) }

/-- The module constant `_MAX_ANSWER_BUFFER_LENGTH`: slack added so models
may generate slightly more tokens than the most verbose chain of thought
in the dataset. -/
def maxAnswerBufferLength : Nat := 10

/-- One example of a generation-with-answers corpus after `read_dataset`'s
normalizing map.  The map also unions the answer into the `aliases` set;
`_get_max_answer_length` scans `[example[self.answer_key]] + aliases`, so
the duplicate has no effect on the maximum and `aliases` here holds the
stored alias list. -/
structure GenExample where
  answer : String
  aliases : List String
  chain_of_thought : String

/-- The response string measured for one answer or alias: the example's
chain of thought followed by `cot_delimiter` and the answer when the
corpus has a `chain_of_thought` column, the bare answer otherwise. -/
def responseOf (has_cot : Bool) (cot_delimiter : String) (ex : GenExample)
    (answer : String) : String :=
  if has_cot then ex.chain_of_thought ++ cot_delimiter ++ answer
  else answer

/-- `InContextLearningGenerationTaskWithAnswersDataset._get_max_answer_length`:
running maximum of the tokenized response length over every example and
every answer/alias, plus `_MAX_ANSWER_BUFFER_LENGTH` exactly when
`len(self.cot_delimiter) > 0`.  The tokenizer is abstract. -/
def getMaxAnswerLength (tok : String → List Int) (has_cot : Bool)
    (cot_delimiter : String) (dataset : List GenExample) : Nat :=
  let max_answer_length := dataset.foldl (fun acc ex =>
    (ex.answer :: ex.aliases).foldl
      (fun acc2 a =>
        max acc2 (tok (responseOf has_cot cot_delimiter ex a)).length)
      acc) 0
  max_answer_length +
    (if cot_delimiter.length > 0 then maxAnswerBufferLength else 0)

/-- The `max_seq_len` / `padding_size` update at the end of
`InContextLearningGenerationTaskWithAnswersDataset.read_dataset`: raise
`max_seq_len` to `max_answer_length` when it is smaller (logging a
warning), then set `padding_size = max_seq_len - max_answer_length`.
Returns `(max_seq_len, padding_size)`. -/
def readDatasetSeqLens (max_seq_len max_answer_length : Nat) :
    Nat × Nat :=
  let msl := if max_seq_len < max_answer_length then max_answer_length
    else max_seq_len
  (msl, msl - max_answer_length)

/-- The dataset-config fields consulted by `_validate_cfg`
(`llmfoundry/data/utils.py`).  The override flags default to `False` when
absent (`dataset_cfg.pop(..., False)`); `max_seq_len` is a possibly
fractional numeric value, modelled as a rational (`None` when the key is
absent). -/
structure DatasetCfg where
  eos_token_id : Option Int
  bos_token_id : Option Int
  override_eos_token_id_mismatch_error : Bool
  override_bos_token_id_mismatch_error : Bool
  max_seq_len : Option Rat

/-- The eos-mismatch message raised or logged by `_validate_cfg`. -/
def eosMismatchMsg : String :=
  "Provided eos_token_id does not match the eos_token_id of the tokenizer."

/-- The bos-mismatch message raised or logged by `_validate_cfg`. -/
def bosMismatchMsg : String :=
  "Provided bos_token_id does not match the bos_token_id of the tokenizer."

/-- The eos block of `_validate_cfg`: when a configured `eos_token_id`
differs from the tokenizer's (`None` included), raise unless the
`override_eos_token_id_mismatch_error` flag downgrades it to a logged
warning. -/
def eosCheck (cfg : DatasetCfg) (tokenizer_eos_token_id : Option Int) :
    Except String (List String) :=
  match cfg.eos_token_id with
  | some e =>
    if some e ≠ tokenizer_eos_token_id then
      if cfg.override_eos_token_id_mismatch_error then .ok [eosMismatchMsg]
      else .error eosMismatchMsg
    else .ok []
  | none => .ok []

/-- The bos block of `_validate_cfg`, symmetric to the eos block. -/
def bosCheck (cfg : DatasetCfg) (tokenizer_bos_token_id : Option Int) :
    Except String (List String) :=
  match cfg.bos_token_id with
  | some e =>
    if some e ≠ tokenizer_bos_token_id then
      if cfg.override_bos_token_id_mismatch_error then .ok [bosMismatchMsg]
      else .error bosMismatchMsg
    else .ok []
  | none => .ok []

/-- `_validate_cfg`: run the eos block, the bos block, then reject a
`max_seq_len` that is not an integer value
(`max_seq_len != int(max_seq_len)`), which has no override flag.  Returns
the list of logged warnings; a raised `ValueError` is `Except.error`. -/
def validateCfg (cfg : DatasetCfg)
    (tokenizer_eos_token_id tokenizer_bos_token_id : Option Int) :
    Except String (List String) := do
  let w1 ← eosCheck cfg tokenizer_eos_token_id
  let w2 ← bosCheck cfg tokenizer_bos_token_id
  match cfg.max_seq_len with
  | some x =>
    if x.isInt then pure (w1 ++ w2)
    else throw "max_seq_len must be an integer"
  | none => pure (w1 ++ w2)

/-- The eos block does not raise: the eos id is absent, matches the
tokenizer, or the override flag is set. -/
def eosCheckOk (cfg : DatasetCfg) (tokenizer_eos_token_id : Option Int) :
    Bool :=
  match cfg.eos_token_id with
  | none => true
  | some e =>
    some e == tokenizer_eos_token_id
      || cfg.override_eos_token_id_mismatch_error

/-- The bos block does not raise. -/
def bosCheckOk (cfg : DatasetCfg) (tokenizer_bos_token_id : Option Int) :
    Bool :=
  match cfg.bos_token_id with
  | none => true
  | some e =>
    some e == tokenizer_bos_token_id
      || cfg.override_bos_token_id_mismatch_error

/-- The value returned by a token-counting function
(`Union[int, dict[str, int]]`): either a plain count or a dict holding
`total` and `loss_generating` counts. -/
inductive TokenCount where
  | int (n : Int)
  | dict (total loss_generating : Int)

/-- The `total` count appended to `total_tokens` for one row (the plain
count itself when the function returned an `int`). -/
def TokenCount.total : TokenCount → Int
  | .int n => n
  | .dict t _ => t

/-- The `loss_generating` count appended to `loss_generating_tokens` for
one row (the plain count itself when the function returned an `int`). -/
def TokenCount.lossGen : TokenCount → Int
  | .int n => n
  | .dict _ l => l

/-- `LossGeneratingTokensCollatorWrapper._token_count_batch_keys`. -/
def tokenCountBatchKeys : List String :=
  ["input_ids", "attention_mask", "labels", "decoder_attention_mask"]

/-- Python slicing `v[row:row+1]`: the one-element (or empty) sub-sequence
starting at `row`, per runtime type. -/
def rowSlice (row : Nat) : BVal → BVal
  | .tensor rows => .tensor ((rows.drop row).take 1)
  | .tensorList xs => .tensorList ((xs.drop row).take 1)
  | .tupleList xs => .tupleList ((xs.drop row).take 1)
  | .primList xs => .primList ((xs.drop row).take 1)
  | .str s => .str (String.mk ((s.toList.drop row).take 1))

/-- The `row_batch` dict built for one row: each of the four
`_token_count_batch_keys` that is present in the batch, mapped to the
`[row:row+1]` slice of its value. -/
def mkRowBatch (batch : List (String × BVal)) (row : Nat) :
    List (String × BVal) :=
  tokenCountBatchKeys.filterMap (fun k =>
    (List.lookup k batch).map (fun v => (k, rowSlice row v)))

/-- Python dict assignment `batch[k] = v`: replace the value in place when
the key exists, append the new entry otherwise. -/
def setKey (b : List (String × BVal)) (k : String) (v : BVal) :
    List (String × BVal) :=
  if b.any (fun kv => kv.1 == k) then
    b.map (fun kv => if kv.1 == k then (k, v) else kv)
  else
    b ++ [(k, v)]

/-- `LossGeneratingTokensCollatorWrapper.__call__` applied to the batch
the base collator (an external collaborator) produced: read the row count
off `input_ids` (a missing or non-tensor `input_ids` is a Python
`KeyError`/`AttributeError`, modelled as `none`), run the token-counting
function on every single-row sub-batch, and store the per-row `total` and
`loss_generating` counts under `total_tokens` and
`loss_generating_tokens`. -/
def lossGenTokensCollatorCall
    (token_counting_func : List (String × BVal) → TokenCount)
    (batch : List (String × BVal)) : Option (List (String × BVal)) :=
  match List.lookup "input_ids" batch with
  | some (.tensor rows) =>
    let num_rows := rows.length
    let counts := (List.range num_rows).map
      (fun row => token_counting_func (mkRowBatch batch row))
    some (setKey
      (setKey batch "total_tokens"
        (.primList (counts.map TokenCount.total)))
      "loss_generating_tokens"
      (.primList (counts.map TokenCount.lossGen)))
  | _ => none

/-! ### Basic facts about `splitList` -/

theorem splitList_nil (n : Nat) : splitList n ([] : List α) = [] := by
  rw [splitList]; simp

theorem splitList_flatten {α : Type _} {n : Nat} (hn : 0 < n) (xs : List α) :
    (splitList n xs).flatten = xs := by
  induction xs using splitList.induct n with
  | case1 xs h =>
    have hx : xs = [] := by
      rcases h with h | h
      · omega
      · exact List.isEmpty_iff.mp h
    subst hx
    rw [splitList_nil]
    rfl
  | case2 xs h ih =>
    rw [splitList, dif_neg h]
    simp only [List.flatten_cons, ih, List.take_append_drop]

theorem splitList_getElem? {α : Type _} {n : Nat} (hn : 0 < n) (xs : List α)
    (i : Nat) :
    (splitList n xs)[i]? =
      if i * n < xs.length then some ((xs.drop (i * n)).take n) else none := by
  induction xs using splitList.induct n generalizing i with
  | case1 xs h =>
    have hx : xs = [] := by
      rcases h with h | h
      · omega
      · exact List.isEmpty_iff.mp h
    subst hx
    rw [splitList_nil]
    simp
  | case2 xs h ih =>
    rw [splitList, dif_neg h]
    push_neg at h
    have hlen : 0 < xs.length := by
      cases xs with
      | nil => simp at h
      | cons a l => simp
    cases i with
    | zero => simp [hlen]
    | succ i =>
      rw [List.getElem?_cons_succ, ih i]
      simp only [List.drop_drop, List.length_drop, Nat.succ_mul]
      have hcomm : n + i * n = i * n + n := by ring
      rw [hcomm]
      by_cases hc : i * n + n < xs.length
      · rw [if_pos (by omega), if_pos hc]
      · rw [if_neg (by omega), if_neg hc]

theorem lt_splitList_length {α : Type _} {n : Nat} (hn : 0 < n)
    (xs : List α) (i : Nat) :
    i < (splitList n xs).length ↔ i * n < xs.length := by
  have h := splitList_getElem? hn xs i
  by_cases hc : i * n < xs.length
  · rw [if_pos hc] at h
    have hs : i < (splitList n xs).length := by
      by_contra hcc
      rw [List.getElem?_eq_none_iff.mpr (by omega)] at h
      exact Option.noConfusion h
    exact ⟨fun _ => hc, fun _ => hs⟩
  · rw [if_neg hc] at h
    have hs := List.getElem?_eq_none_iff.mp h
    exact ⟨fun hi => absurd hi (by omega), fun hcc => absurd hcc hc⟩

theorem length_eq_of_lt_iff {α β : Type _} {l1 : List α} {l2 : List β}
    (h : ∀ i, i < l1.length ↔ i < l2.length) : l1.length = l2.length := by
  have h1 := h l1.length
  have h2 := h l2.length
  omega

theorem splitList_take_sum {α : Type _} {n : Nat} (hn : 0 < n) (xs : List α)
    (j : Nat) :
    (((splitList n xs).take j).map List.length).sum = min (j * n) xs.length := by
  induction xs using splitList.induct n generalizing j with
  | case1 xs h =>
    have hx : xs = [] := by
      rcases h with h | h
      · omega
      · exact List.isEmpty_iff.mp h
    subst hx
    rw [splitList_nil]
    simp
  | case2 xs h ih =>
    rw [splitList, dif_neg h]
    cases j with
    | zero => simp
    | succ j =>
      rw [List.take_succ_cons, List.map_cons, List.sum_cons, ih j]
      simp only [List.length_take, List.length_drop, Nat.succ_mul]
      omega

theorem splitList_eq_map_range {α : Type _} {n : Nat} (hn : 0 < n)
    (xs : List α) :
    splitList n xs =
      (List.range (splitList n xs).length).map
        (fun i => (xs.drop (i * n)).take n) := by
  apply List.ext_getElem?
  intro i
  rw [splitList_getElem? hn xs i]
  by_cases hc : i < (splitList n xs).length
  · rw [List.getElem?_map, List.getElem?_range hc]
    rw [if_pos ((lt_splitList_length hn xs i).mp hc)]
    rfl
  · rw [if_neg (fun hcc => hc ((lt_splitList_length hn xs i).mpr hcc))]
    rw [List.getElem?_eq_none_iff.mpr (by simpa using hc)]


/-- C7 counterexample: with eos token id `0`, the single-EOS preamble
`[0]` is returned unchanged by `_fix_eos_on_preamble`, while the claim
(embodied in `fixEosOnPreambleClaim`, which strips on any non-empty
preamble ending in EOS) predicts `[]`. -/
theorem c7_cex :
    fixEosOnPreamble (some 0) [0] = [0] ∧
    fixEosOnPreambleClaim (some 0) [0] = [] ∧
    fixEosOnPreamble (some 0) [0] ≠ fixEosOnPreambleClaim (some 0) [0] := by
  refine ⟨?_, ?_, ?_⟩ <;> decide

/-- C7 (amended): `_fix_eos_on_preamble` removes the final token exactly
when the tokenizer has a non-null `eos_token_id`, the preamble has MORE
THAN ONE token, and its last token equals the eos id; otherwise the list
is returned unchanged — in particular a preamble consisting of a single
EOS token is returned unchanged. -/
theorem c7_amended (eos_token_id : Option Int) (input_ids : List Int) :
    (∀ e, eos_token_id = some e → 1 < input_ids.length →
      input_ids.getLast? = some e →
      fixEosOnPreamble eos_token_id input_ids = input_ids.dropLast) ∧
    ((eos_token_id = none ∨ input_ids.length ≤ 1 ∨
        input_ids.getLast? ≠ eos_token_id) →
      fixEosOnPreamble eos_token_id input_ids = input_ids) ∧
    (∀ e, fixEosOnPreamble (some e) [e] = [e]) := by
  refine ⟨?_, ?_, ?_⟩
  · intro e he hlen hlast
    rw [fixEosOnPreamble, if_pos ⟨by simp [he], hlen, by rw [hlast, he]⟩]
  · intro h
    rw [fixEosOnPreamble, if_neg]
    rintro ⟨h1, h2, h3⟩
    rcases h with h | h | h
    · simp [h] at h1
    · omega
    · exact h h3
  · intro e
    rw [fixEosOnPreamble, if_neg]
    rintro ⟨-, h2, -⟩
    simp at h2

theorem c7_amended_witness :
    (fixEosOnPreamble (some 5) [1, 2, 5] = [1, 2]) ∧
    (fixEosOnPreamble (some 5) [1, 2] = [1, 2]) ∧
    (fixEosOnPreamble (some 5) [5] = [5]) :=
  ⟨(c7_amended (some 5) [1, 2, 5]).1 5 rfl (by decide) (by decide),
   (c7_amended (some 5) [1, 2]).2.1 (by right; right; decide),
   (c7_amended (some 5) [5]).2.2 5⟩

/-- C3: for the multiple-choice and schema variants,
`get_effective_batch_size(n)` is exactly `max(num_choices, n) //
num_choices` (integer division, `num_choices` positive); the base variant
returns `n` unchanged. -/
theorem c3_effective_batch_size (num_choices n : Nat)
    (h : 0 < num_choices) :
    mcGetEffectiveBatchSize num_choices n = max num_choices n / num_choices ∧
    schemaGetEffectiveBatchSize num_choices n
      = max num_choices n / num_choices ∧
    baseGetEffectiveBatchSize n = n :=
  ⟨rfl, rfl, rfl⟩

theorem c3_witness :
    0 < 4 ∧
    (mcGetEffectiveBatchSize 4 10 = max 4 10 / 4 ∧
     schemaGetEffectiveBatchSize 4 10 = max 4 10 / 4 ∧
     baseGetEffectiveBatchSize 10 = 10) :=
  ⟨by decide, c3_effective_batch_size 4 10 (by decide)⟩

/-- C4 counterexample: with `num_choices = 2` and `n = 4`,
`get_effective_batch_size(get_effective_batch_size(4)) = 1 ≠ 2 =
get_effective_batch_size(4)` for both the multiple-choice and the schema
variant, refuting plain idempotence. -/
theorem c4_cex :
    ¬(mcGetEffectiveBatchSize 2 (mcGetEffectiveBatchSize 2 4)
        = mcGetEffectiveBatchSize 2 4 ∧
      schemaGetEffectiveBatchSize 2 (schemaGetEffectiveBatchSize 2 4)
        = schemaGetEffectiveBatchSize 2 4) := by
  decide

/-- C4 (amended): re-applying `get_effective_batch_size` to the row count
its own result induces is stable: for positive `num_choices` and `n`,
`gebs(num_choices * gebs(n)) = gebs(n)` for the multiple-choice and schema
variants. -/
theorem c4_amended (num_choices n : Nat) (hN : 0 < num_choices)
    (hn : 0 < n) :
    mcGetEffectiveBatchSize num_choices
        (num_choices * mcGetEffectiveBatchSize num_choices n)
      = mcGetEffectiveBatchSize num_choices n ∧
    schemaGetEffectiveBatchSize num_choices
        (num_choices * schemaGetEffectiveBatchSize num_choices n)
      = schemaGetEffectiveBatchSize num_choices n := by
  have hq : 0 < mcGetEffectiveBatchSize num_choices n := by
    unfold mcGetEffectiveBatchSize
    exact Nat.div_pos (le_max_left _ _) hN
  constructor
  · unfold mcGetEffectiveBatchSize at *
    rw [max_eq_right (Nat.le_mul_of_pos_right _ hq)]
    exact Nat.mul_div_cancel_left _ hN
  · unfold schemaGetEffectiveBatchSize mcGetEffectiveBatchSize at *
    rw [max_eq_right (Nat.le_mul_of_pos_right _ hq)]
    exact Nat.mul_div_cancel_left _ hN

theorem c4_amended_witness :
    0 < 2 ∧ 0 < 5 ∧
    (mcGetEffectiveBatchSize 2 (2 * mcGetEffectiveBatchSize 2 5)
        = mcGetEffectiveBatchSize 2 5 ∧
     schemaGetEffectiveBatchSize 2 (2 * schemaGetEffectiveBatchSize 2 5)
        = schemaGetEffectiveBatchSize 2 5) :=
  ⟨by decide, by decide, c4_amended 2 5 (by decide) (by decide)⟩

/-- C5: for every variant (multiple-choice/schema with any key
classification, generation-with-answers, and the base class delegating to
composer), `split_batch` fails with a `ValueError` whenever the requested
microbatch size is a floating-point value, for every input batch. -/
theorem c5_float_microbatch_rejected (ks : SplitKeys) (gks : GenSplitKeys)
    (num_choices : Nat) (batch : List (String × BVal)) :
    mcSplitBatch ks num_choices batch .float
      = .error "split_batch does not support floating point microbatch_size." ∧
    genSplitBatch gks batch .float
      = .error "split_batch does not support floating point microbatch_size." ∧
    baseSplitBatch batch .float
      = .error "_default_split_batch does not support floating point microbatch_size." :=
  ⟨rfl, rfl, rfl⟩


theorem foldlM_except_error {α β : Type} (f : β → α → Except String β)
    (l : List α) (a : α) (ha : a ∈ l)
    (herr : ∀ b, ∃ msg, f b a = .error msg) :
    ∀ acc, ∃ msg, l.foldlM f acc = .error msg := by
  induction l with
  | nil => cases ha
  | cons x xs ih =>
    intro acc
    rw [List.foldlM_cons]
    rcases List.mem_cons.mp ha with rfl | hmem
    · obtain ⟨msg, hmsg⟩ := herr acc
      exact ⟨msg, by rw [hmsg]; rfl⟩
    · cases hfx : f acc x with
      | error msg => exact ⟨msg, rfl⟩
      | ok b =>
        obtain ⟨msg, hmsg⟩ := ih hmem b
        exact ⟨msg, hmsg⟩

/-- C6: a batch key that is neither static nor in any recognized
list/tensor classification makes `split_batch` raise a fatal `ValueError`,
for every batch containing such a key and every integer microbatch size
(multiple-choice/schema loop and generation-task loop alike). -/
theorem c6_unknown_key_error (ks : SplitKeys) (gks : GenSplitKeys)
    (num_choices m : Nat) (batch : List (String × BVal)) (k : String)
    (v : BVal) (hmem : (k, v) ∈ batch)
    (h1 : k ∉ ks.static_keys) (h2 : k ∉ ks.list_of_tensors_keys)
    (h3 : k ∉ ks.list_of_tuples_keys) (h4 : k ∉ ks.list_of_primitives)
    (h5 : k ∉ ks.tensor_keys)
    (g1 : k ∉ gks.static_keys) (g2 : k ∉ gks.list_keys)
    (g3 : k ∉ gks.tensor_keys) :
    (∃ msg, mcSplitBatch ks num_choices batch (.int m) = .error msg) ∧
    (∃ msg, genSplitBatch gks batch (.int m) = .error msg) := by
  constructor
  · have herr : ∀ acc, ∃ msg,
        mcSplitStep ks num_choices m acc (k, v) = .error msg := by
      intro acc
      by_cases hpl : v.isPyList
      · exact ⟨_, by simp [mcSplitStep, h1, h2, h3, h4, hpl]; rfl⟩
      · exact ⟨_, by simp [mcSplitStep, h1, h2, h3, h4, h5, hpl]; rfl⟩
    obtain ⟨msg, hmsg⟩ :=
      foldlM_except_error (mcSplitStep ks num_choices m) batch (k, v) hmem
        herr []
    refine ⟨msg, ?_⟩
    show (batch.foldlM (mcSplitStep ks num_choices m) [] >>=
        fun chunked => assembleChunks ks.static_keys batch chunked)
      = .error msg
    rw [hmsg]
    rfl
  · have herr : ∀ acc, ∃ msg,
        genSplitStep gks m acc (k, v) = .error msg := by
      intro acc
      exact ⟨_, by simp [genSplitStep, g1, g2, g3]; rfl⟩
    obtain ⟨msg, hmsg⟩ :=
      foldlM_except_error (genSplitStep gks m) batch (k, v) hmem herr []
    refine ⟨msg, ?_⟩
    show (batch.foldlM (genSplitStep gks m) [] >>=
        fun chunked => assembleChunks gks.static_keys batch chunked)
      = .error msg
    rw [hmsg]
    rfl

theorem c6_witness :
    (("bogus", BVal.primList [1]) ∈
      ([("bogus", BVal.primList [1])] : List (String × BVal))) ∧
    ((∃ msg, mcSplitBatch mcKeys 2 [("bogus", BVal.primList [1])] (.int 1)
        = .error msg) ∧
     (∃ msg, genSplitBatch genKeys [("bogus", BVal.primList [1])] (.int 1)
        = .error msg)) :=
  ⟨by decide,
   c6_unknown_key_error mcKeys genKeys 2 1 [("bogus", BVal.primList [1])]
    "bogus" (BVal.primList [1]) (by decide) (by decide) (by decide)
    (by decide) (by decide) (by decide) (by decide) (by decide) (by decide)⟩

theorem mapM_ok_of_forall {α β : Type} (f : α → Except String β)
    (g : α → β) (l : List α) (h : ∀ a ∈ l, f a = .ok (g a)) :
    l.mapM f = .ok (l.map g) := by
  induction l with
  | nil => rfl
  | cons x xs ih =>
    rw [List.mapM_cons, h x (List.mem_cons_self x xs),
      ih (fun a ha => h a (List.mem_cons_of_mem x ha))]
    rfl

theorem c1_run (b : MCBatch) (N m Q : Nat)
    (hm : 0 < m) (hN : 0 < N)
    (hi : b.input_ids.length = N * Q)
    (hl : b.labels.length = N * Q)
    (ha : b.attention_mask.length = N * Q)
    (hc : b.continuation_indices.length = N * Q)
    (hg : b.gold_indices.length = Q)
    (hch : b.choice_groupings.length = Q) :
    mcSplitBatch mcKeys N b.toAssoc (.int m)
      = .ok ((List.range (splitList (m * N) b.input_ids).length).map
          (mcMicrobatchAt b N m)) := by
  have hmN : 0 < m * N := Nat.mul_pos hm hN
  have hfold : (MCBatch.toAssoc b).foldlM (mcSplitStep mcKeys N m) [] = .ok
      [("input_ids", (splitList (m*N) b.input_ids).map BVal.tensor),
       ("continuation_indices",
         (splitList (m*N) b.continuation_indices).map BVal.tensorList),
       ("labels", (splitList (m*N) b.labels).map BVal.tensor),
       ("gold_indices", (splitList m b.gold_indices).map BVal.primList),
       ("choice_groupings",
         (splitList m b.choice_groupings).map BVal.tupleList),
       ("attention_mask",
         (splitList (m*N) b.attention_mask).map BVal.tensor)] := by
    simp [MCBatch.toAssoc, mcSplitStep, mcKeys, chunkBVal, defaultSplitBVal,
      BVal.isPyList, List.foldlM]
    rfl
  have hassemble : assembleChunks mcKeys.static_keys b.toAssoc
      [("input_ids", (splitList (m*N) b.input_ids).map BVal.tensor),
       ("continuation_indices",
         (splitList (m*N) b.continuation_indices).map BVal.tensorList),
       ("labels", (splitList (m*N) b.labels).map BVal.tensor),
       ("gold_indices", (splitList m b.gold_indices).map BVal.primList),
       ("choice_groupings",
         (splitList m b.choice_groupings).map BVal.tupleList),
       ("attention_mask",
         (splitList (m*N) b.attention_mask).map BVal.tensor)]
      = .ok ((List.range (splitList (m * N) b.input_ids).length).map
          (mcMicrobatchAt b N m)) := by
    rw [assembleChunks]
    simp only [List.lookup, String.reduceBEq, List.length_map,
      MCBatch.toAssoc, mcKeys, List.filter, List.map, beq_self_eq_true,
      List.cons_append, List.nil_append]
    apply mapM_ok_of_forall
    intro idx hidx
    have hidx' : idx < (splitList (m * N) b.input_ids).length :=
      List.mem_range.mp hidx
    have hx : idx * (m * N) < N * Q := by
      have := (lt_splitList_length hmN b.input_ids idx).mp hidx'
      rwa [hi] at this
    have hq : idx * m < Q := by
      have h1 : idx * m * N < Q * N := by
        calc idx * m * N = idx * (m * N) := by ring
        _ < N * Q := hx
        _ = Q * N := by ring
      exact lt_of_mul_lt_mul_right h1 (Nat.zero_le N)
    have e1 : ((splitList (m*N) b.input_ids).map BVal.tensor)[idx]?
        = some (BVal.tensor
            ((b.input_ids.drop (idx * (m * N))).take (m * N))) := by
      rw [List.getElem?_map, splitList_getElem? hmN,
        if_pos (by rw [hi]; exact hx)]
      rfl
    have e2 : ((splitList (m*N) b.continuation_indices).map
          BVal.tensorList)[idx]?
        = some (BVal.tensorList
            ((b.continuation_indices.drop (idx * (m * N))).take (m * N))) := by
      rw [List.getElem?_map, splitList_getElem? hmN,
        if_pos (by rw [hc]; exact hx)]
      rfl
    have e3 : ((splitList (m*N) b.labels).map BVal.tensor)[idx]?
        = some (BVal.tensor
            ((b.labels.drop (idx * (m * N))).take (m * N))) := by
      rw [List.getElem?_map, splitList_getElem? hmN,
        if_pos (by rw [hl]; exact hx)]
      rfl
    have e4 : ((splitList m b.gold_indices).map BVal.primList)[idx]?
        = some (BVal.primList ((b.gold_indices.drop (idx * m)).take m)) := by
      rw [List.getElem?_map, splitList_getElem? hm,
        if_pos (by rw [hg]; exact hq)]
      rfl
    have e5 : ((splitList m b.choice_groupings).map BVal.tupleList)[idx]?
        = some (BVal.tupleList
            ((b.choice_groupings.drop (idx * m)).take m)) := by
      rw [List.getElem?_map, splitList_getElem? hm,
        if_pos (by rw [hch]; exact hq)]
      rfl
    have e6 : ((splitList (m*N) b.attention_mask).map BVal.tensor)[idx]?
        = some (BVal.tensor
            ((b.attention_mask.drop (idx * (m * N))).take (m * N))) := by
      rw [List.getElem?_map, splitList_getElem? hmN,
        if_pos (by rw [ha]; exact hx)]
      rfl
    have e7 : (List.replicate (splitList (m * N) b.input_ids).length
          (BVal.str b.mode))[idx]? = some (BVal.str b.mode) := by
      rw [List.getElem?_replicate, if_pos hidx']
    simp only [List.mapM, List.mapM.loop, e1, e2, e3, e4, e5, e6, e7,
      mcMicrobatchAt]
    rfl
  show (b.toAssoc.foldlM (mcSplitStep mcKeys N m) [] >>=
      fun chunked => assembleChunks mcKeys.static_keys b.toAssoc chunked)
    = _
  rw [hfold]
  exact hassemble

/-- C1: splitting a well-formed multiple-choice batch (tensor and
list-of-tensors keys of `N * Q` rows, one gold index and one
`(q*N, q*N + N)` grouping per question) with a positive integer microbatch
size succeeds; concatenating the microbatches' `input_ids`, `labels`,
`attention_mask` and `continuation_indices` rows in order reproduces the
original batch; every microbatch boundary in tensor rows is a multiple of
`num_choices`, so no boundary falls strictly inside a `choice_groupings`
range; `gold_indices` and `choice_groupings` are split at one-per-question
granularity `m`; and the static `mode` value is broadcast unchanged into
every microbatch. -/
theorem c1_main (b : MCBatch) (N m Q : Nat)
    (hm : 0 < m) (hN : 0 < N)
    (hi : b.input_ids.length = N * Q)
    (hl : b.labels.length = N * Q)
    (ha : b.attention_mask.length = N * Q)
    (hc : b.continuation_indices.length = N * Q)
    (hg : b.gold_indices.length = Q)
    (hch : b.choice_groupings.length = Q)
    (hgr : ∀ p ∈ b.choice_groupings, ∃ q, p = (q * N, q * N + N)) :
    ∃ chunks, mcSplitBatch mcKeys N b.toAssoc (.int m) = .ok chunks ∧
      (chunks.map (fun mb => getTensor mb "input_ids")).flatten
        = b.input_ids ∧
      (chunks.map (fun mb => getTensor mb "labels")).flatten = b.labels ∧
      (chunks.map (fun mb => getTensor mb "attention_mask")).flatten
        = b.attention_mask ∧
      (chunks.map (fun mb => getTensorList mb "continuation_indices")).flatten
        = b.continuation_indices ∧
      (∀ j, N ∣ tensorBoundary chunks j) ∧
      (∀ j, ∀ p ∈ b.choice_groupings,
        ¬(p.1 < tensorBoundary chunks j ∧ tensorBoundary chunks j < p.2)) ∧
      (∀ i mb, chunks[i]? = some mb →
        getPrimList mb "gold_indices"
          = (b.gold_indices.drop (i * m)).take m ∧
        getTupleList mb "choice_groupings"
          = (b.choice_groupings.drop (i * m)).take m) ∧
      (∀ mb ∈ chunks, List.lookup "mode" mb = some (.str b.mode)) := by
  have hmN : 0 < m * N := Nat.mul_pos hm hN
  set K := (splitList (m * N) b.input_ids).length with hK
  have hiff : ∀ i : Nat, i * m < Q ↔ i * (m * N) < N * Q := by
    intro i
    constructor
    · intro h
      calc i * (m * N) = i * m * N := by ring
        _ < Q * N := mul_lt_mul_of_pos_right h hN
        _ = N * Q := by ring
    · intro h
      have h1 : i * m * N < Q * N := by
        calc i * m * N = i * (m * N) := by ring
          _ < N * Q := h
          _ = Q * N := by ring
      exact lt_of_mul_lt_mul_right h1 (Nat.zero_le N)
  have hcount : ∀ xs : List (List Int), xs.length = N * Q →
      (splitList (m * N) xs).length = K := by
    intro xs hxs
    rw [hK]
    apply length_eq_of_lt_iff
    intro i
    rw [lt_splitList_length hmN, lt_splitList_length hmN, hxs, hi]
  have hmap_iid : ((List.range K).map (mcMicrobatchAt b N m)).map
      (fun mb => getTensor mb "input_ids") = splitList (m * N) b.input_ids := by
    rw [List.map_map]
    exact (splitList_eq_map_range hmN b.input_ids).symm
  have hmap_lab : ((List.range K).map (mcMicrobatchAt b N m)).map
      (fun mb => getTensor mb "labels") = splitList (m * N) b.labels := by
    rw [List.map_map]
    have h := splitList_eq_map_range hmN b.labels
    rw [hcount b.labels hl] at h
    exact h.symm
  have hmap_am : ((List.range K).map (mcMicrobatchAt b N m)).map
      (fun mb => getTensor mb "attention_mask")
      = splitList (m * N) b.attention_mask := by
    rw [List.map_map]
    have h := splitList_eq_map_range hmN b.attention_mask
    rw [hcount b.attention_mask ha] at h
    exact h.symm
  have hmap_ci : ((List.range K).map (mcMicrobatchAt b N m)).map
      (fun mb => getTensorList mb "continuation_indices")
      = splitList (m * N) b.continuation_indices := by
    rw [List.map_map]
    have h := splitList_eq_map_range hmN b.continuation_indices
    rw [hcount b.continuation_indices hc] at h
    exact h.symm
  have hbound : ∀ j,
      tensorBoundary ((List.range K).map (mcMicrobatchAt b N m)) j
        = min (j * (m * N)) (N * Q) := by
    intro j
    unfold tensorBoundary
    rw [show (fun mb => (getTensor mb "input_ids").length)
        = List.length ∘ (fun mb : List (String × BVal) =>
            getTensor mb "input_ids") from rfl,
      ← List.map_map, List.map_take, hmap_iid,
      splitList_take_sum hmN, hi]
  refine ⟨(List.range K).map (mcMicrobatchAt b N m),
    c1_run b N m Q hm hN hi hl ha hc hg hch, ?_, ?_, ?_, ?_, ?_, ?_, ?_, ?_⟩
  · rw [hmap_iid]
    exact splitList_flatten hmN b.input_ids
  · rw [hmap_lab]
    exact splitList_flatten hmN b.labels
  · rw [hmap_am]
    exact splitList_flatten hmN b.attention_mask
  · rw [hmap_ci]
    exact splitList_flatten hmN b.continuation_indices
  · intro j
    rw [hbound j]
    rcases le_total (j * (m * N)) (N * Q) with hle | hle
    · rw [min_eq_left hle]
      exact ⟨j * m, by ring⟩
    · rw [min_eq_right hle]
      exact ⟨Q, rfl⟩
  · intro j p hp hcontra
    obtain ⟨q, hq⟩ := hgr p hp
    subst hq
    obtain ⟨h1, h2⟩ := hcontra
    rw [hbound j] at h1 h2
    obtain ⟨c, hcmin⟩ : ∃ c, min (j * (m * N)) (N * Q) = N * c := by
      rcases le_total (j * (m * N)) (N * Q) with hle | hle
      · exact ⟨j * m, by rw [min_eq_left hle]; ring⟩
      · exact ⟨Q, by rw [min_eq_right hle]⟩
    rw [hcmin] at h1 h2
    have h1' : N * q < N * c := by
      rw [mul_comm N q]
      exact h1
    have h2' : N * c < N * (q + 1) := by
      rw [Nat.mul_succ, mul_comm N q]
      exact h2
    have hqc := lt_of_mul_lt_mul_left h1' (Nat.zero_le N)
    have hcq := lt_of_mul_lt_mul_left h2' (Nat.zero_le N)
    omega
  · intro i mb hmb
    by_cases hiK : i < K
    · rw [List.getElem?_map, List.getElem?_range hiK] at hmb
      simp only [Option.map_some'] at hmb
      have hmbeq := Option.some.inj hmb
      subst hmbeq
      exact ⟨rfl, rfl⟩
    · rw [List.getElem?_map,
        List.getElem?_eq_none_iff.mpr
          (by simpa using Nat.le_of_not_lt hiK)] at hmb
      cases hmb
  · intro mb hmb
    obtain ⟨i, hi_mem, rfl⟩ := List.mem_map.mp hmb
    rfl

theorem c1_witness :
    (0 < 1 ∧ 0 < 2 ∧
     mcBatchEx.input_ids.length = 2 * 2 ∧
     mcBatchEx.labels.length = 2 * 2 ∧
     mcBatchEx.attention_mask.length = 2 * 2 ∧
     mcBatchEx.continuation_indices.length = 2 * 2 ∧
     mcBatchEx.gold_indices.length = 2 ∧
     mcBatchEx.choice_groupings.length = 2 ∧
     (∀ p ∈ mcBatchEx.choice_groupings, ∃ q, p = (q * 2, q * 2 + 2))) ∧
    (∃ chunks, mcSplitBatch mcKeys 2 mcBatchEx.toAssoc (.int 1)
        = .ok chunks ∧
      (chunks.map (fun mb => getTensor mb "input_ids")).flatten
        = mcBatchEx.input_ids ∧
      (chunks.map (fun mb => getTensor mb "labels")).flatten
        = mcBatchEx.labels ∧
      (chunks.map (fun mb => getTensor mb "attention_mask")).flatten
        = mcBatchEx.attention_mask ∧
      (chunks.map
          (fun mb => getTensorList mb "continuation_indices")).flatten
        = mcBatchEx.continuation_indices ∧
      (∀ j, 2 ∣ tensorBoundary chunks j) ∧
      (∀ j, ∀ p ∈ mcBatchEx.choice_groupings,
        ¬(p.1 < tensorBoundary chunks j ∧ tensorBoundary chunks j < p.2)) ∧
      (∀ i mb, chunks[i]? = some mb →
        getPrimList mb "gold_indices"
          = (mcBatchEx.gold_indices.drop (i * 1)).take 1 ∧
        getTupleList mb "choice_groupings"
          = (mcBatchEx.choice_groupings.drop (i * 1)).take 1) ∧
      (∀ mb ∈ chunks,
        List.lookup "mode" mb = some (.str mcBatchEx.mode))) := by
  have hgr : ∀ p ∈ mcBatchEx.choice_groupings,
      ∃ q, p = (q * 2, q * 2 + 2) := by
    intro p hp
    rcases List.mem_cons.mp hp with rfl | hp2
    · exact ⟨0, rfl⟩
    · rcases List.mem_cons.mp hp2 with rfl | hp3
      · exact ⟨1, rfl⟩
      · cases hp3
  exact ⟨⟨by decide, by decide, by decide, by decide, by decide, by decide,
      by decide, by decide, hgr⟩,
    c1_main mcBatchEx 2 1 2 (by decide) (by decide) (by decide) (by decide)
      (by decide) (by decide) (by decide) (by decide) hgr⟩

theorem mcCollate_fold_invariant (N : Nat) :
    ∀ (data : List MCRecord) (acc : MCBatch) (t : Nat),
    (∀ r ∈ data, r.contexts.length = N ∧
      r.continuation_indices.length = N) →
    acc.input_ids.length = N * t →
    acc.continuation_indices.length = N * t →
    acc.gold_indices.length = t →
    acc.choice_groupings.length = t →
    (∀ q, q < t → acc.choice_groupings[q]? = some (q * N, (q + 1) * N)) →
    ∃ out, data.foldlM mcCollateStep acc = some out ∧
      out.input_ids.length = N * (t + data.length) ∧
      out.continuation_indices.length = N * (t + data.length) ∧
      out.gold_indices.length = t + data.length ∧
      out.choice_groupings.length = t + data.length ∧
      (∀ q, q < t + data.length →
        out.choice_groupings[q]? = some (q * N, (q + 1) * N)) := by
  intro data
  induction data with
  | nil =>
    intro acc t h1 h2 h3 h4 h5 h6
    exact ⟨acc, rfl, by simpa using h2, by simpa using h3,
      by simpa using h4, by simpa using h5, by simpa using h6⟩
  | cons r rs ih =>
    intro acc t hall h2 h3 h4 h5 h6
    obtain ⟨hrc, hri⟩ := hall r (List.mem_cons_self r rs)
    have hstep : mcCollateStep acc r = some { acc with
        input_ids := acc.input_ids ++ r.contexts,
        continuation_indices := acc.continuation_indices ++
          r.continuation_indices.take r.contexts.length,
        labels := acc.labels ++ r.contexts,
        gold_indices := acc.gold_indices ++ [r.gold],
        choice_groupings := acc.choice_groupings ++
          [(acc.continuation_indices.length,
            acc.continuation_indices.length + r.contexts.length)] } := by
      rw [mcCollateStep, if_pos (by rw [hrc, hri])]
    have hall' : ∀ r' ∈ rs, r'.contexts.length = N ∧
        r'.continuation_indices.length = N :=
      fun r' hr' => hall r' (List.mem_cons_of_mem r hr')
    have hsucc : N * t + N = N * (t + 1) := by ring
    obtain ⟨out, hout, o1, o2, o3, o4, o5⟩ := ih
      { acc with
        input_ids := acc.input_ids ++ r.contexts,
        continuation_indices := acc.continuation_indices ++
          r.continuation_indices.take r.contexts.length,
        labels := acc.labels ++ r.contexts,
        gold_indices := acc.gold_indices ++ [r.gold],
        choice_groupings := acc.choice_groupings ++
          [(acc.continuation_indices.length,
            acc.continuation_indices.length + r.contexts.length)] }
      (t + 1) hall'
      (by simp [List.length_append, h2, hrc, Nat.mul_succ])
      (by simp [List.length_append, List.length_take, h3, hrc, hri,
        Nat.mul_succ])
      (by simp [List.length_append, h4])
      (by simp [List.length_append, h5])
      (by
        intro q hq
        by_cases hqt : q < t
        · rw [List.getElem?_append, if_pos (by rw [h5]; exact hqt)]
          exact h6 q hqt
        · have hqeq : q = t := by omega
          subst hqeq
          rw [List.getElem?_append, if_neg (by rw [h5]; omega), h5,
            Nat.sub_self]
          simp only [List.getElem?_cons_zero, h3, hrc]
          congr 1
          rw [Prod.ext_iff]
          constructor
          · ring
          · show N * q + N = (q + 1) * N
            ring)
    rw [List.foldlM_cons, hstep]
    refine ⟨out, hout, ?_, ?_, ?_, ?_, ?_⟩
    · rw [o1]
      congr 1
      simp only [List.length_cons]
      omega
    · rw [o2]
      congr 1
      simp only [List.length_cons]
      omega
    · rw [o3]
      simp only [List.length_cons]
      omega
    · rw [o4]
      simp only [List.length_cons]
      omega
    · intro q hq
      exact o5 q (by simp only [List.length_cons] at hq; omega)

/-- C2: collating `Q` tokenized multiple-choice records, each carrying `N`
per-choice padded contexts with their `N` continuation-index tensors,
succeeds and yields a batch whose `input_ids` has exactly `N * Q` rows,
whose `choice_groupings` and `gold_indices` have length `Q`, and whose
`q`-th grouping tuple is `(q * N, (q + 1) * N)`, spanning exactly `N`
contiguous rows. -/
theorem c2_collate (pad_tok_id : Int) (N : Nat) (data : List MCRecord)
    (hN : ∀ r ∈ data, r.contexts.length = N ∧
      r.continuation_indices.length = N) :
    ∃ batch, mcCollateFn pad_tok_id data = some batch ∧
      batch.input_ids.length = N * data.length ∧
      batch.choice_groupings.length = data.length ∧
      batch.gold_indices.length = data.length ∧
      (∀ q, q < data.length →
        batch.choice_groupings[q]? = some (q * N, (q + 1) * N)) := by
  obtain ⟨out, hout, o1, o2, o3, o4, o5⟩ :=
    mcCollate_fold_invariant N data
      { input_ids := [], continuation_indices := [], mode := "icl_task",
        labels := [], gold_indices := [], choice_groupings := [],
        attention_mask := [] } 0 hN (by simp) (by simp) (by simp) (by simp)
      (by intro q hq; omega)
  refine ⟨{ out with
      attention_mask := out.input_ids.map
        (fun row => row.map (fun t => if t = pad_tok_id then 0 else 1)) },
    ?_, ?_, ?_, ?_, ?_⟩
  · show (data.foldlM mcCollateStep _ >>= _) = _
    rw [hout]
    rfl
  · simpa using o1
  · simpa using o4
  · simpa using o3
  · intro q hq
    exact o5 q (by omega)

theorem c2_witness :
    (∀ r ∈ [MCRecord.mk [[1], [2]] [[0], [0]] 0,
            MCRecord.mk [[3], [4]] [[0], [0]] 1],
      r.contexts.length = 2 ∧ r.continuation_indices.length = 2) ∧
    (∃ batch, mcCollateFn 0
        [MCRecord.mk [[1], [2]] [[0], [0]] 0,
         MCRecord.mk [[3], [4]] [[0], [0]] 1] = some batch ∧
      batch.input_ids.length = 2 *
        ([MCRecord.mk [[1], [2]] [[0], [0]] 0,
          MCRecord.mk [[3], [4]] [[0], [0]] 1] : List MCRecord).length ∧
      batch.choice_groupings.length =
        ([MCRecord.mk [[1], [2]] [[0], [0]] 0,
          MCRecord.mk [[3], [4]] [[0], [0]] 1] : List MCRecord).length ∧
      batch.gold_indices.length =
        ([MCRecord.mk [[1], [2]] [[0], [0]] 0,
          MCRecord.mk [[3], [4]] [[0], [0]] 1] : List MCRecord).length ∧
      (∀ q, q < ([MCRecord.mk [[1], [2]] [[0], [0]] 0,
          MCRecord.mk [[3], [4]] [[0], [0]] 1] : List MCRecord).length →
        batch.choice_groupings[q]? = some (q * 2, (q + 1) * 2))) :=
  ⟨by decide, c2_collate 0 2 _ (by decide)⟩

theorem foldr_max_init (l : List Nat) (b : Nat) :
    l.foldr max b = max b (l.foldr max 0) := by
  induction l with
  | nil => simp
  | cons x xs ih =>
    simp only [List.foldr_cons, ih]
    omega

theorem foldl_max_eq (l : List Nat) :
    ∀ acc, l.foldl max acc = max acc (l.foldr max 0) := by
  induction l with
  | nil => intro acc; simp
  | cons x xs ih =>
    intro acc
    simp only [List.foldl_cons, List.foldr_cons, ih (max acc x)]
    omega

theorem foldl_nested_max (f : GenExample → List Nat)
    (ds : List GenExample) :
    ∀ acc, ds.foldl (fun a ex => (f ex).foldl max a) acc
      = max acc ((ds.map f).flatten.foldr max 0) := by
  induction ds with
  | nil => intro acc; simp
  | cons ex rest ih =>
    intro acc
    rw [List.foldl_cons, ih, foldl_max_eq]
    rw [List.map_cons, List.flatten_cons, List.foldr_append,
      foldr_max_init (f ex) (List.foldr max 0 ((rest.map f).flatten))]
    omega

/-- C8: after `read_dataset`, `max_answer_length` is the maximum over
every example and every answer/alias (with the chain-of-thought prefix and
`cot_delimiter` prepended when the corpus has a `chain_of_thought` column)
of the tokenized response length, plus a buffer of exactly 10 tokens if
and only if `cot_delimiter` is a non-empty string; `max_seq_len` is raised
to `max_answer_length` whenever the configured value is smaller; and
`padding_size` is the raised `max_seq_len` minus `max_answer_length`. -/
theorem c8_max_answer_length (tok : String → List Int) (has_cot : Bool)
    (cot_delimiter : String) (dataset : List GenExample)
    (max_seq_len : Nat) :
    getMaxAnswerLength tok has_cot cot_delimiter dataset
      = ((dataset.map (fun ex => (ex.answer :: ex.aliases).map
            (fun a =>
              (tok (responseOf has_cot cot_delimiter ex a)).length))
          ).flatten.foldr max 0)
        + (if cot_delimiter ≠ "" then maxAnswerBufferLength else 0) ∧
    (readDatasetSeqLens max_seq_len
        (getMaxAnswerLength tok has_cot cot_delimiter dataset)).1
      = max max_seq_len
          (getMaxAnswerLength tok has_cot cot_delimiter dataset) ∧
    (readDatasetSeqLens max_seq_len
        (getMaxAnswerLength tok has_cot cot_delimiter dataset)).2
      = max max_seq_len
          (getMaxAnswerLength tok has_cot cot_delimiter dataset)
        - getMaxAnswerLength tok has_cot cot_delimiter dataset := by
  refine ⟨?_, ?_, ?_⟩
  · unfold getMaxAnswerLength
    have hfold : dataset.foldl (fun acc ex =>
        (ex.answer :: ex.aliases).foldl
          (fun acc2 a =>
            max acc2 (tok (responseOf has_cot cot_delimiter ex a)).length)
          acc) 0
        = ((dataset.map (fun ex => (ex.answer :: ex.aliases).map
            (fun a =>
              (tok (responseOf has_cot cot_delimiter ex a)).length))
          ).flatten.foldr max 0) := by
      have hinner : ∀ (ex : GenExample) (acc : Nat),
          (ex.answer :: ex.aliases).foldl
            (fun acc2 a =>
              max acc2 (tok (responseOf has_cot cot_delimiter ex a)).length)
            acc
          = ((ex.answer :: ex.aliases).map
              (fun a =>
                (tok (responseOf has_cot cot_delimiter ex a)).length)
            ).foldl max acc := by
        intro ex acc
        rw [List.foldl_map]
      calc dataset.foldl (fun acc ex =>
            (ex.answer :: ex.aliases).foldl
              (fun acc2 a =>
                max acc2
                  (tok (responseOf has_cot cot_delimiter ex a)).length)
              acc) 0
          = dataset.foldl (fun acc ex =>
              ((ex.answer :: ex.aliases).map
                (fun a =>
                  (tok (responseOf has_cot cot_delimiter ex a)).length)
              ).foldl max acc) 0 := by
            congr 1
            funext acc ex
            exact hinner ex acc
        _ = _ := by
            rw [foldl_nested_max]
            omega
    rw [hfold]
    by_cases hcd : cot_delimiter = ""
    · subst hcd
      simp
    · have hpos : 0 < cot_delimiter.length := by
        cases cot_delimiter with
        | mk data =>
          cases data with
          | nil => simp at hcd
          | cons c cs => simp [String.length]
      rw [if_pos hcd, if_pos hpos]
  · simp only [readDatasetSeqLens]
    split <;> omega
  · simp only [readDatasetSeqLens]
    split <;> omega

theorem eosCheck_ok_of (cfg : DatasetCfg) (te : Option Int)
    (h : eosCheckOk cfg te = true) : ∃ ws, eosCheck cfg te = .ok ws := by
  unfold eosCheckOk at h
  unfold eosCheck
  match hcase : cfg.eos_token_id with
  | none => exact ⟨[], rfl⟩
  | some e =>
    rw [hcase] at h
    by_cases hmatch : some e = te
    · exact ⟨[], by simp [hmatch]⟩
    · have hov : cfg.override_eos_token_id_mismatch_error = true := by
        simp [hmatch] at h
        exact h
      exact ⟨[eosMismatchMsg], by simp [hmatch, hov]⟩

theorem bosCheck_ok_of (cfg : DatasetCfg) (tb : Option Int)
    (h : bosCheckOk cfg tb = true) : ∃ ws, bosCheck cfg tb = .ok ws := by
  unfold bosCheckOk at h
  unfold bosCheck
  match hcase : cfg.bos_token_id with
  | none => exact ⟨[], rfl⟩
  | some e =>
    rw [hcase] at h
    by_cases hmatch : some e = tb
    · exact ⟨[], by simp [hmatch]⟩
    · have hov : cfg.override_bos_token_id_mismatch_error = true := by
        simp [hmatch] at h
        exact h
      exact ⟨[bosMismatchMsg], by simp [hmatch, hov]⟩

/-- C9: `_validate_cfg` raises immediately on an eos (or bos) token-id
mismatch with the tokenizer unless the corresponding override flag is set
in the dataset config, in which case validation succeeds and the mismatch
is only a logged warning; and a `max_seq_len` that is not an integer value
is always a fatal error, with no override flag for that case. -/
theorem c9_validate_cfg (cfg : DatasetCfg) (te tb : Option Int) :
    (∀ e, cfg.eos_token_id = some e → some e ≠ te →
      cfg.override_eos_token_id_mismatch_error = false →
      validateCfg cfg te tb = .error eosMismatchMsg) ∧
    (∀ e, cfg.bos_token_id = some e → some e ≠ tb →
      cfg.override_bos_token_id_mismatch_error = false →
      eosCheckOk cfg te = true →
      validateCfg cfg te tb = .error bosMismatchMsg) ∧
    (∀ e, cfg.eos_token_id = some e → some e ≠ te →
      cfg.override_eos_token_id_mismatch_error = true →
      bosCheckOk cfg tb = true →
      (∀ x, cfg.max_seq_len = some x → x.isInt) →
      ∃ ws, validateCfg cfg te tb = .ok ws ∧ eosMismatchMsg ∈ ws) ∧
    (∀ x, cfg.max_seq_len = some x → x.isInt = false →
      eosCheckOk cfg te = true →
      bosCheckOk cfg tb = true →
      validateCfg cfg te tb = .error "max_seq_len must be an integer") := by
  refine ⟨?_, ?_, ?_, ?_⟩
  · intro e he hne hov
    have herr : eosCheck cfg te = .error eosMismatchMsg := by
      simp [eosCheck, he, hne, hov]
    show (eosCheck cfg te >>= _) = _
    rw [herr]
    rfl
  · intro e he hne hov heos
    obtain ⟨w1, hw1⟩ := eosCheck_ok_of cfg te heos
    have herr : bosCheck cfg tb = .error bosMismatchMsg := by
      simp [bosCheck, he, hne, hov]
    show (eosCheck cfg te >>= _) = _
    rw [hw1]
    show (bosCheck cfg tb >>= _) = _
    rw [herr]
    rfl
  · intro e he hne hov hbos hmsl
    have hw1 : eosCheck cfg te = .ok [eosMismatchMsg] := by
      simp [eosCheck, he, hne, hov]
    obtain ⟨w2, hw2⟩ := bosCheck_ok_of cfg tb hbos
    refine ⟨[eosMismatchMsg] ++ w2, ?_, by simp⟩
    show (eosCheck cfg te >>= _) = _
    rw [hw1]
    show (bosCheck cfg tb >>= _) = _
    rw [hw2]
    match hcase : cfg.max_seq_len with
    | none => rfl
    | some x =>
      have := hmsl x hcase
      simp [this]
  · intro x hx hnotint heos hbos
    obtain ⟨w1, hw1⟩ := eosCheck_ok_of cfg te heos
    obtain ⟨w2, hw2⟩ := bosCheck_ok_of cfg tb hbos
    show (eosCheck cfg te >>= _) = _
    rw [hw1]
    show (bosCheck cfg tb >>= _) = _
    rw [hw2]
    show (match cfg.max_seq_len with
      | some x =>
        if x.isInt then pure (w1 ++ w2)
        else throw "max_seq_len must be an integer"
      | none => pure (w1 ++ w2) : Except String (List String)) = _
    rw [hx]
    simp [hnotint]
    rfl

theorem c9_witness :
    (let cfg1 : DatasetCfg :=
      { eos_token_id := some 7, bos_token_id := none,
        override_eos_token_id_mismatch_error := false,
        override_bos_token_id_mismatch_error := false,
        max_seq_len := some 8 }
     validateCfg cfg1 (some 2) none = .error eosMismatchMsg) ∧
    (let cfg2 : DatasetCfg :=
      { eos_token_id := some 7, bos_token_id := none,
        override_eos_token_id_mismatch_error := true,
        override_bos_token_id_mismatch_error := false,
        max_seq_len := some 8 }
     ∃ ws, validateCfg cfg2 (some 2) none = .ok ws ∧
       eosMismatchMsg ∈ ws) ∧
    (let cfg3 : DatasetCfg :=
      { eos_token_id := none, bos_token_id := none,
        override_eos_token_id_mismatch_error := false,
        override_bos_token_id_mismatch_error := false,
        max_seq_len := some (mkRat 5 2) }
     validateCfg cfg3 none none
       = .error "max_seq_len must be an integer") := by
  refine ⟨?_, ?_, ?_⟩
  · exact (c9_validate_cfg _ (some 2) none).1 7 rfl (by decide) rfl
  · exact (c9_validate_cfg _ (some 2) none).2.2.1 7 rfl (by decide) rfl
      (by decide) (by intro x hx; cases hx; decide)
  · exact (c9_validate_cfg _ none none).2.2.2 (mkRat 5 2) rfl (by decide)
      (by decide) (by decide)

theorem any_eq_false_of_lookup_none (b : List (String × BVal))
    (k : String) (h : List.lookup k b = none) :
    (b.any fun kv => kv.1 == k) = false := by
  induction b with
  | nil => rfl
  | cons x xs ih =>
    rw [List.lookup_cons] at h
    rw [List.any_cons]
    split at h
    · cases h
    · rename_i heq
      have hx : (x.1 == k) = false := by
        rw [beq_eq_false_iff_ne] at heq ⊢
        exact fun hc => heq hc.symm
      rw [hx]
      simp only [Bool.false_or]
      exact ih h

theorem setKey_absent (b : List (String × BVal)) (k : String) (v : BVal)
    (h : List.lookup k b = none) : setKey b k v = b ++ [(k, v)] := by
  have hfalse := any_eq_false_of_lookup_none b k h
  rw [setKey, if_neg (by rw [hfalse]; exact Bool.false_ne_true)]

theorem lookup_append_left {β : Type} (l1 l2 : List (String × β))
    (k : String) (h : List.lookup k l1 = none) :
    List.lookup k (l1 ++ l2) = List.lookup k l2 := by
  induction l1 with
  | nil => rfl
  | cons x xs ih =>
    rw [List.lookup_cons] at h
    rw [List.cons_append, List.lookup_cons]
    split at h
    · cases h
    · exact ih h

/-- C10: on a base-collator batch whose `input_ids` tensor has `R` rows
and which does not already carry the two derived keys, the wrapper returns
the batch with every original key/value unchanged and exactly two keys
appended — `total_tokens` and `loss_generating_tokens`, each a list with
one entry per row holding the `total` (resp. `loss_generating`) count the
token-counting function computes on that row's single-row sub-batch. -/
theorem c10_loss_generating_wrapper
    (token_counting_func : List (String × BVal) → TokenCount)
    (batch : List (String × BVal)) (rows : List (List Int))
    (hiid : List.lookup "input_ids" batch = some (.tensor rows))
    (htt : List.lookup "total_tokens" batch = none)
    (hlg : List.lookup "loss_generating_tokens" batch = none) :
    lossGenTokensCollatorCall token_counting_func batch
      = some (batch ++
        [("total_tokens", .primList ((List.range rows.length).map
            (fun row =>
              (token_counting_func (mkRowBatch batch row)).total))),
         ("loss_generating_tokens", .primList
            ((List.range rows.length).map
              (fun row =>
                (token_counting_func (mkRowBatch batch row)).lossGen)))]) ∧
    ((List.range rows.length).map
        (fun row =>
          (token_counting_func (mkRowBatch batch row)).total)).length
      = rows.length ∧
    ((List.range rows.length).map
        (fun row =>
          (token_counting_func (mkRowBatch batch row)).lossGen)).length
      = rows.length := by
  refine ⟨?_, by simp, by simp⟩
  rw [lossGenTokensCollatorCall, hiid]
  dsimp only
  rw [setKey_absent batch _ _ htt]
  rw [setKey_absent _ _ _ (by
    rw [lookup_append_left _ _ _ hlg]
    rfl)]
  rw [List.append_assoc]
  have hmm1 : List.map TokenCount.total
      (List.map (fun row => token_counting_func (mkRowBatch batch row))
        (List.range rows.length))
    = List.map (fun row => (token_counting_func (mkRowBatch batch row)).total)
        (List.range rows.length) := by
    rw [List.map_map]
    rfl
  have hmm2 : List.map TokenCount.lossGen
      (List.map (fun row => token_counting_func (mkRowBatch batch row))
        (List.range rows.length))
    = List.map
        (fun row => (token_counting_func (mkRowBatch batch row)).lossGen)
        (List.range rows.length) := by
    rw [List.map_map]
    rfl
  rw [hmm1, hmm2]
  rfl

theorem c10_witness :
    (List.lookup "input_ids"
        [("input_ids", BVal.tensor [[1], [2]])]
      = some (BVal.tensor [[1], [2]])) ∧
    (List.lookup "total_tokens"
        [("input_ids", BVal.tensor [[1], [2]])] = none) ∧
    (lossGenTokensCollatorCall (fun _ => TokenCount.int 3)
        [("input_ids", BVal.tensor [[1], [2]])]
      = some ([("input_ids", BVal.tensor [[1], [2]])] ++
        [("total_tokens", BVal.primList
            ((List.range ([[1], [2]] : List (List Int)).length).map
              (fun row => (TokenCount.int 3).total))),
         ("loss_generating_tokens", BVal.primList
            ((List.range ([[1], [2]] : List (List Int)).length).map
              (fun row => (TokenCount.int 3).lossGen)))])) :=
  ⟨by decide, by decide,
    ((c10_loss_generating_wrapper (fun _ => TokenCount.int 3)
      [("input_ids", BVal.tensor [[1], [2]])] [[1], [2]]
      (by decide) (by decide) (by decide)).1)⟩

end ICL
